import Mathlib

/-!
Shallow embedding of src/FileHandler.ts: a readiness-gated FIFO task queue
("FileHandler") coordinating read/write/append operations against a lazily
initialized browser file-system backend.

The class state is modelled by `SchedState`; the methods `addTaskToQueue`,
`deQueueTask`, `initFs` and the per-operation completion handlers are
translated into pure state transformers.  JavaScript is single-threaded, so
each asynchronous callback delivered by the environment runs one synchronous
turn to completion; the environment's deliveries (task submissions, the
requestFileSystem callback, and the completion of the outstanding backend
call) form the command alphabet `Cmd`, and a whole run is a fold of `step`
over a command list.

The `tasksProcessSubject` field is an rxjs 5 `BehaviorSubject<boolean>`
(imported on line 1 of the source).  Its `next(v)` stores `v` and then
synchronously delivers `v` to every current subscriber unconditionally:
`Subject.next` performs no comparison with the previously stored value
(distinct-until-changed filtering is a separate rxjs operator, not used
here).  The only subscriber is the one registered in the constructor
(lines 30-34), whose callback dequeues when it receives `true` and the queue
is non-empty.  `BehaviorSubjectB` below models the subject on its own;
inside the scheduler model the subject's stored value is the `signal` field
and its single subscription is inlined at each `next` call site.
-/

namespace BrowserFs

/-- The kind of backend operation a queued task performs: `readFile`,
`writeFile` or `appendToFile`. -/
inductive OpKind where
  | read
  | write
  | append
deriving DecidableEq, Repr

/-- One caller-submitted task: the closure pushed by `readFile` / `writeFile`
/ `appendToFile` captures the file name, the content to write (unused and
empty for a read) and the success/error continuation pair; `id` identifies
the continuation pair so the trace can record which task's callbacks fire. -/
structure Task where
  id : Nat
  kind : OpKind
  name : String
  content : String
deriving DecidableEq, Repr

/-- The backend file store: file name to current text content.  Newest
binding first; `List.lookup` finds it. -/
abbrev FileStore := List (String × String)

/-- Content an operation sees for `name`: `getFile` with `create: true`
produces an empty file when the name is absent. -/
def getContent (files : FileStore) (name : String) : String :=
  (files.lookup name).getD ""

/-- Record a file's new content. -/
def setContent (files : FileStore) (name : String) (c : String) : FileStore :=
  (name, c) :: files

/-- `FileWriter.write` at a position: the bytes from `pos` up to
`pos + data.length` are replaced by `data`; content before `pos` and after
the written range is kept. -/
def writeAt (pos : Nat) (data s : String) : String :=
  s.take pos ++ data ++ s.drop (pos + data.length)

/-- The file content produced when a task's backend call succeeds.
`writeFile` (lines 74-102) writes the blob at position 0 and, in
`onwriteend`, truncates the file to the blob's size, so the file holds
exactly the new content.  `appendToFile` (lines 113-140) first seeks to
`fileWriter.length` and then writes, so the blob lands after the existing
content.  A read leaves the store unchanged. -/
def applyOp (t : Task) (files : FileStore) : FileStore :=
  match t.kind with
  | OpKind.read => files
  | OpKind.write =>
      setContent files t.name
        ((writeAt 0 t.content (getContent files t.name)).take t.content.length)
  | OpKind.append =>
      setContent files t.name
        (writeAt (getContent files t.name).length t.content (getContent files t.name))

/-- Observable events of a run, in the order they happen: a task is pushed
onto the queue, a task's body starts executing, a task's success or error
continuation fires (`succeeded` carries the text handed to a read's success
callback), and the subject stores a new value. -/
inductive Event where
  | submitted (id : Nat)
  | started (id : Nat)
  | succeeded (id : Nat) (res : Option String)
  | failed (id : Nat)
  | signalSet (b : Bool)
deriving DecidableEq, Repr

/-- The mutable state of a `FileHandler` instance together with the backend
file store and two instrumentation flags.  `signal` is the value stored in
`tasksProcessSubject`; `fsReady` records whether `initFs` has assigned
`this.fs`; `running` is the task whose backend call is outstanding;
`overlap` is set if a task body is entered while another task's backend call
is still outstanding; `fault` is set if `deQueueTask` runs on an empty queue
(where `shift()` yields `undefined` and the call `callback()` throws). -/
structure SchedState where
  tasksQueue : List Task
  signal : Bool
  fsReady : Bool
  running : Option Task
  files : FileStore
  overlap : Bool
  fault : Bool
  trace : List Event
deriving DecidableEq, Repr

/-- The state of a freshly constructed `FileHandler` (lines 22-35): empty
queue, subject holding `false`, no backend handle yet.  The constructor
subscription immediately receives the replayed current value `false`, whose
guard fails, so construction performs no further action. -/
def initState : SchedState :=
  { tasksQueue := [], signal := false, fsReady := false, running := none
  , files := [], overlap := false, fault := false, trace := [] }

/-- Entering a dequeued task's body: the closure built by `readFile` /
`writeFile` / `appendToFile` calls `this.fs.root.getFile(...)`, which
registers asynchronous backend callbacks and returns, leaving the task as
the outstanding backend operation. -/
def startTask (t : Task) (s : SchedState) : SchedState :=
  { s with running := some t
         , overlap := s.overlap || s.running.isSome
         , trace := s.trace ++ [Event.started t.id] }

/-- `deQueueTask` (lines 156-160): shift the head off `tasksQueue`, call
`tasksProcessSubject.next(false)` — the subject stores `false` and notifies
the constructor subscription with `false`, whose guard
`canPerformNewTask && tasksQueue.length > 0` then fails, so nothing further
happens — and finally invoke the shifted callback. -/
def deQueueTask (s : SchedState) : SchedState :=
  match s.tasksQueue with
  | [] => { s with fault := true }
  | t :: rest =>
      startTask t
        { s with tasksQueue := rest, signal := false
               , trace := s.trace ++ [Event.signalSet false] }

/-- `tasksProcessSubject.next(true)`: the subject stores `true` and
synchronously notifies the constructor subscription (lines 30-34) with
`true`; if `tasksQueue` is non-empty the subscription calls `deQueueTask`. -/
def nextTrue (s : SchedState) : SchedState :=
  if s.tasksQueue.length > 0 then
    deQueueTask { s with signal := true, trace := s.trace ++ [Event.signalSet true] }
  else
    { s with signal := true, trace := s.trace ++ [Event.signalSet true] }

/-- `addTaskToQueue` (lines 146-151): push the callback, then, if the queue
now holds exactly one element and `tasksProcessSubject.getValue()` is
`true`, call `deQueueTask` (the fast path). -/
def addTaskToQueue (t : Task) (s : SchedState) : SchedState :=
  if (s.tasksQueue ++ [t]).length = 1 ∧ s.signal = true then
    deQueueTask
      { s with tasksQueue := s.tasksQueue ++ [t]
             , trace := s.trace ++ [Event.submitted t.id] }
  else
    { s with tasksQueue := s.tasksQueue ++ [t]
           , trace := s.trace ++ [Event.submitted t.id] }

/-- `initFs` (lines 177-180): store the DOMFileSystem handle in `this.fs`
and call `next(true)`. -/
def initFs (s : SchedState) : SchedState :=
  nextTrue { s with fsReady := true }

/-- How the outstanding backend call of the running task resolves.
`lookupFail`: `getFile` or `createWriter` invoked its error callback (for a
read, also the only error surface, since no `FileReader` error handler is
registered).  `writeFail`: the `FileWriter` fired `onerror` during the
write. -/
inductive Outcome where
  | success
  | lookupFail
  | writeFail
deriving DecidableEq, Repr

/-- Resolution of the outstanding backend call; no-op when no call is
outstanding.  Success handlers:
read (lines 51-54): `reader.onloadend` calls `next(true)` and then the
success callback with the text read;
write (lines 80-86): `onwriteend` issues the truncate, nulls `onwriteend`,
calls the success callback, then `next(true)`;
append (lines 120-124): `onwriteend` calls the success callback, then
`next(true)`.
`lookupFail` runs `processError` (lines 168-171): error callback, then
`next(true)`.
`writeFail` runs the effective `fileWriter.onerror`.  Line 93 (and line 131
for append) reassigned `onerror` to the bare `onErrorCallback` after the
handler of lines 88-91 (126-129) was installed, so only the error callback
runs and `next(true)` is never called.  A read task has no `FileWriter`, so
`writeFail` cannot be delivered to it. -/
def completeTask (o : Outcome) (s : SchedState) : SchedState :=
  match s.running with
  | none => s
  | some t =>
      match o with
      | Outcome.success =>
          match t.kind with
          | OpKind.read =>
              let s2 := nextTrue { s with running := none, files := applyOp t s.files }
              { s2 with trace :=
                  s2.trace ++ [Event.succeeded t.id (some (getContent s.files t.name))] }
          | OpKind.write =>
              nextTrue { s with running := none, files := applyOp t s.files
                              , trace := s.trace ++ [Event.succeeded t.id none] }
          | OpKind.append =>
              nextTrue { s with running := none, files := applyOp t s.files
                              , trace := s.trace ++ [Event.succeeded t.id none] }
      | Outcome.lookupFail =>
          nextTrue { s with running := none, trace := s.trace ++ [Event.failed t.id] }
      | Outcome.writeFail =>
          match t.kind with
          | OpKind.read => s
          | OpKind.write =>
              { s with running := none, trace := s.trace ++ [Event.failed t.id] }
          | OpKind.append =>
              { s with running := none, trace := s.trace ++ [Event.failed t.id] }

/-- Environment deliveries: a caller submits a task (`readFile` /
`writeFile` / `appendToFile`), the browser delivers the
`requestFileSystem` callback (`initFs`), or the running task's backend call
resolves. -/
inductive Cmd where
  | submit (t : Task)
  | fsInit
  | complete (o : Outcome)
deriving DecidableEq, Repr

/-- One environment delivery runs one synchronous JavaScript turn. -/
def step (s : SchedState) (c : Cmd) : SchedState :=
  match c with
  | Cmd.submit t => addTaskToQueue t s
  | Cmd.fsInit => initFs s
  | Cmd.complete o => completeTask o s

/-- A whole run of the handler under a sequence of environment
deliveries. -/
def run (cs : List Cmd) (s : SchedState) : SchedState :=
  cs.foldl step s

/-- Number of `fsInit` deliveries; the browser invokes the
`requestFileSystem` success callback at most once. -/
def countInit : List Cmd → Nat
  | [] => 0
  | Cmd.fsInit :: cs => countInit cs + 1
  | _ :: cs => countInit cs

/-- Ids of the tasks a command list submits, in order. -/
def submitIds : List Cmd → List Nat
  | [] => []
  | Cmd.submit t :: cs => t.id :: submitIds cs
  | _ :: cs => submitIds cs

/-- Ids of submission events in a trace, in order. -/
def submittedIds (es : List Event) : List Nat :=
  es.filterMap fun e =>
    match e with
    | Event.submitted i => some i
    | _ => none

/-- Ids of task-body-start events in a trace, in order. -/
def startedIds (es : List Event) : List Nat :=
  es.filterMap fun e =>
    match e with
    | Event.started i => some i
    | _ => none

end BrowserFs

namespace BrowserFs

/-! ### Unfolding lemmas for the primitive transformers -/

theorem submittedIds_append (a b : List Event) :
    submittedIds (a ++ b) = submittedIds a ++ submittedIds b := by
  simp [submittedIds]

theorem startedIds_append (a b : List Event) :
    startedIds (a ++ b) = startedIds a ++ startedIds b := by
  simp [startedIds]

theorem deQueueTask_cons (s : SchedState) (t : Task) (rest : List Task)
    (hq : s.tasksQueue = t :: rest) :
    deQueueTask s =
      { s with tasksQueue := rest, signal := false, running := some t
             , overlap := s.overlap || s.running.isSome
             , trace := s.trace ++ [Event.signalSet false, Event.started t.id] } := by
  simp [deQueueTask, hq, startTask]

theorem nextTrue_nil (s : SchedState) (hq : s.tasksQueue = []) :
    nextTrue s = { s with signal := true, trace := s.trace ++ [Event.signalSet true] } := by
  simp [nextTrue, hq]

theorem nextTrue_cons (s : SchedState) (t : Task) (rest : List Task)
    (hq : s.tasksQueue = t :: rest) :
    nextTrue s =
      { s with tasksQueue := rest, signal := false, running := some t
             , overlap := s.overlap || s.running.isSome
             , trace := s.trace ++
                 [Event.signalSet true, Event.signalSet false, Event.started t.id] } := by
  simp [nextTrue, hq, deQueueTask, startTask]

theorem addTaskToQueue_fast (s : SchedState) (t : Task)
    (hq : s.tasksQueue = []) (hsig : s.signal = true) :
    addTaskToQueue t s =
      { s with tasksQueue := [], signal := false, running := some t
             , overlap := s.overlap || s.running.isSome
             , trace := s.trace ++
                 [Event.submitted t.id, Event.signalSet false, Event.started t.id] } := by
  simp [addTaskToQueue, hq, hsig, deQueueTask, startTask]

theorem addTaskToQueue_slow (s : SchedState) (t : Task)
    (h : ¬ ((s.tasksQueue ++ [t]).length = 1 ∧ s.signal = true)) :
    addTaskToQueue t s =
      { s with tasksQueue := s.tasksQueue ++ [t]
             , trace := s.trace ++ [Event.submitted t.id] } := by
  simp only [addTaskToQueue, if_neg h]

end BrowserFs

namespace BrowserFs

/-! ### Trace projection simp lemmas -/

@[simp] theorem submittedIds_nil : submittedIds [] = [] := rfl

@[simp] theorem submittedIds_submitted_cons (i : Nat) (es : List Event) :
    submittedIds (Event.submitted i :: es) = i :: submittedIds es := rfl

@[simp] theorem submittedIds_started_cons (i : Nat) (es : List Event) :
    submittedIds (Event.started i :: es) = submittedIds es := rfl

@[simp] theorem submittedIds_succeeded_cons (i : Nat) (r : Option String) (es : List Event) :
    submittedIds (Event.succeeded i r :: es) = submittedIds es := rfl

@[simp] theorem submittedIds_failed_cons (i : Nat) (es : List Event) :
    submittedIds (Event.failed i :: es) = submittedIds es := rfl

@[simp] theorem submittedIds_signalSet_cons (b : Bool) (es : List Event) :
    submittedIds (Event.signalSet b :: es) = submittedIds es := rfl

@[simp] theorem startedIds_nil : startedIds [] = [] := rfl

@[simp] theorem startedIds_submitted_cons (i : Nat) (es : List Event) :
    startedIds (Event.submitted i :: es) = startedIds es := rfl

@[simp] theorem startedIds_started_cons (i : Nat) (es : List Event) :
    startedIds (Event.started i :: es) = i :: startedIds es := rfl

@[simp] theorem startedIds_succeeded_cons (i : Nat) (r : Option String) (es : List Event) :
    startedIds (Event.succeeded i r :: es) = startedIds es := rfl

@[simp] theorem startedIds_failed_cons (i : Nat) (es : List Event) :
    startedIds (Event.failed i :: es) = startedIds es := rfl

@[simp] theorem startedIds_signalSet_cons (b : Bool) (es : List Event) :
    startedIds (Event.signalSet b :: es) = startedIds es := rfl

/-! ### The reachable-state invariant -/

theorem nextTrue_fsReady (s : SchedState) : (nextTrue s).fsReady = s.fsReady := by
  cases hq : s.tasksQueue with
  | nil => rw [nextTrue_nil s hq]
  | cons t rest => rw [nextTrue_cons s t rest hq]

/-- Invariant satisfied by every state reachable from `initState` under at
most one `fsInit` delivery: no fault, no overlapping task bodies, the
subject reads `false` whenever a backend call is outstanding, the subject
reads `true` only when the handler is idle, nothing at all has happened
except submissions while the backend is uninitialized, and the submitted
tasks are exactly the started ones followed by the queued ones, in order. -/
structure SchedInv (s : SchedState) : Prop where
  fault_eq : s.fault = false
  overlap_eq : s.overlap = false
  run_sig : s.running.isSome = true → s.signal = false
  sig_idle : s.signal = true → s.tasksQueue = [] ∧ s.running = none
  pre_init : s.fsReady = false →
    s.signal = false ∧ s.running = none ∧ ∀ e ∈ s.trace, ∃ i, e = Event.submitted i
  fifo : submittedIds s.trace = startedIds s.trace ++ s.tasksQueue.map Task.id

theorem schedInv_initState : SchedInv initState := by
  constructor <;> simp [initState]

theorem schedInv_nextTrue_aux (s : SchedState) (h0 : s.fault = false) (h1 : s.overlap = false)
    (h2 : s.running = none) (h3 : s.fsReady = true)
    (h4 : submittedIds s.trace = startedIds s.trace ++ s.tasksQueue.map Task.id) :
    SchedInv (nextTrue s) := by
  cases hq : s.tasksQueue with
  | nil =>
      rw [nextTrue_nil s hq]
      constructor
      · exact h0
      · exact h1
      · intro hx; rw [h2] at hx; simp at hx
      · intro _; exact ⟨hq, h2⟩
      · intro hf; rw [h3] at hf; simp at hf
      · rw [hq] at h4
        simp at h4
        simp [submittedIds_append, startedIds_append, hq, h4]
  | cons t rest =>
      rw [nextTrue_cons s t rest hq]
      constructor
      · exact h0
      · simp [h1, h2]
      · intro _; rfl
      · intro hx; simp at hx
      · intro hf; rw [h3] at hf; simp at hf
      · rw [hq] at h4
        simp [submittedIds_append, startedIds_append, h4]

theorem schedInv_trace_aux (s : SchedState) (h : SchedInv s) (hfs : s.fsReady = true)
    (e : Event) (hsub : submittedIds [e] = []) (hst : startedIds [e] = []) :
    SchedInv { s with trace := s.trace ++ [e] } := by
  constructor
  · exact h.fault_eq
  · exact h.overlap_eq
  · exact h.run_sig
  · exact h.sig_idle
  · intro hf; rw [hfs] at hf; simp at hf
  · simp [submittedIds_append, startedIds_append, hsub, hst, h.fifo]

theorem schedInv_addTaskToQueue (t : Task) (s : SchedState) (h : SchedInv s) :
    SchedInv (addTaskToQueue t s) := by
  by_cases hc : (s.tasksQueue ++ [t]).length = 1 ∧ s.signal = true
  · obtain ⟨hq, hrun⟩ := h.sig_idle hc.2
    rw [addTaskToQueue_fast s t hq hc.2]
    constructor
    · exact h.fault_eq
    · simp [h.overlap_eq, hrun]
    · intro _; rfl
    · intro hx; simp at hx
    · intro hf
      have h1 := (h.pre_init hf).1
      rw [hc.2] at h1; simp at h1
    · have hf0 := h.fifo
      rw [hq] at hf0; simp at hf0
      simp [submittedIds_append, startedIds_append, hf0]
  · rw [addTaskToQueue_slow s t hc]
    constructor
    · exact h.fault_eq
    · exact h.overlap_eq
    · exact h.run_sig
    · intro hs
      exact absurd ⟨by simp [(h.sig_idle hs).1], hs⟩ hc
    · intro hf
      refine ⟨(h.pre_init hf).1, (h.pre_init hf).2.1, ?_⟩
      intro e he
      rcases List.mem_append.mp he with h1 | h2
      · exact (h.pre_init hf).2.2 e h1
      · simp at h2; exact ⟨t.id, h2⟩
    · simp [submittedIds_append, startedIds_append, h.fifo]

theorem schedInv_initFs (s : SchedState) (h : SchedInv s) (hfs : s.fsReady = false) :
    SchedInv (initFs s) :=
  schedInv_nextTrue_aux _ h.fault_eq h.overlap_eq ((h.pre_init hfs).2.1) rfl h.fifo

theorem schedInv_writeFail_aux (s : SchedState) (t : Task) (h : SchedInv s)
    (hrun : s.running = some t) :
    SchedInv { s with running := none, trace := s.trace ++ [Event.failed t.id] } := by
  constructor
  · exact h.fault_eq
  · exact h.overlap_eq
  · intro hx; simp at hx
  · intro hs
    have h1 := (h.sig_idle hs).2
    rw [hrun] at h1; simp at h1
  · intro hf
    have h1 := (h.pre_init hf).2.1
    rw [hrun] at h1; simp at h1
  · simp [submittedIds_append, startedIds_append, h.fifo]

theorem schedInv_completeTask (o : Outcome) (s : SchedState) (h : SchedInv s) :
    SchedInv (completeTask o s) := by
  cases hrun : s.running with
  | none => simpa [completeTask, hrun] using h
  | some t =>
      have hfs : s.fsReady = true := by
        cases hsf : s.fsReady with
        | true => rfl
        | false =>
            have h1 := (h.pre_init hsf).2.1
            rw [hrun] at h1; simp at h1
      cases o with
      | success =>
          cases hk : t.kind with
          | read =>
              simp only [completeTask, hrun, hk]
              refine schedInv_trace_aux _ ?_ ?_ _ (by simp) (by simp)
              · exact schedInv_nextTrue_aux _ h.fault_eq h.overlap_eq rfl hfs h.fifo
              · rw [nextTrue_fsReady]; exact hfs
          | write =>
              simp only [completeTask, hrun, hk]
              refine schedInv_nextTrue_aux _ h.fault_eq h.overlap_eq rfl hfs ?_
              simp [submittedIds_append, startedIds_append, h.fifo]
          | append =>
              simp only [completeTask, hrun, hk]
              refine schedInv_nextTrue_aux _ h.fault_eq h.overlap_eq rfl hfs ?_
              simp [submittedIds_append, startedIds_append, h.fifo]
      | lookupFail =>
          simp only [completeTask, hrun]
          refine schedInv_nextTrue_aux _ h.fault_eq h.overlap_eq rfl hfs ?_
          simp [submittedIds_append, startedIds_append, h.fifo]
      | writeFail =>
          cases hk : t.kind with
          | read => simpa [completeTask, hrun, hk] using h
          | write =>
              simp only [completeTask, hrun, hk]
              exact schedInv_writeFail_aux s t h hrun
          | append =>
              simp only [completeTask, hrun, hk]
              exact schedInv_writeFail_aux s t h hrun

end BrowserFs

namespace BrowserFs

/-! ### Run-level lemmas -/

@[simp] theorem countInit_nil : countInit [] = 0 := rfl

@[simp] theorem countInit_submit_cons (t : Task) (cs : List Cmd) :
    countInit (Cmd.submit t :: cs) = countInit cs := rfl

@[simp] theorem countInit_fsInit_cons (cs : List Cmd) :
    countInit (Cmd.fsInit :: cs) = countInit cs + 1 := rfl

@[simp] theorem countInit_complete_cons (o : Outcome) (cs : List Cmd) :
    countInit (Cmd.complete o :: cs) = countInit cs := rfl

@[simp] theorem submitIds_nil : submitIds [] = [] := rfl

@[simp] theorem submitIds_submit_cons (t : Task) (cs : List Cmd) :
    submitIds (Cmd.submit t :: cs) = t.id :: submitIds cs := rfl

@[simp] theorem submitIds_fsInit_cons (cs : List Cmd) :
    submitIds (Cmd.fsInit :: cs) = submitIds cs := rfl

@[simp] theorem submitIds_complete_cons (o : Outcome) (cs : List Cmd) :
    submitIds (Cmd.complete o :: cs) = submitIds cs := rfl

theorem run_nil (s : SchedState) : run [] s = s := rfl

theorem run_cons (c : Cmd) (cs : List Cmd) (s : SchedState) :
    run (c :: cs) s = run cs (step s c) := rfl

theorem run_append (cs ds : List Cmd) (s : SchedState) :
    run (cs ++ ds) s = run ds (run cs s) := by
  simp [run, List.foldl_append]

theorem deQueueTask_fsReady (s : SchedState) : (deQueueTask s).fsReady = s.fsReady := by
  cases hq : s.tasksQueue <;> simp [deQueueTask, hq, startTask]

theorem addTaskToQueue_fsReady (t : Task) (s : SchedState) :
    (addTaskToQueue t s).fsReady = s.fsReady := by
  simp only [addTaskToQueue]
  split
  · simp [deQueueTask_fsReady]
  · rfl

theorem completeTask_fsReady (o : Outcome) (s : SchedState) :
    (completeTask o s).fsReady = s.fsReady := by
  cases hrun : s.running with
  | none => simp [completeTask, hrun]
  | some t =>
      cases o with
      | success => cases hk : t.kind <;> simp [completeTask, hrun, hk, nextTrue_fsReady]
      | lookupFail => simp [completeTask, hrun, nextTrue_fsReady]
      | writeFail => cases hk : t.kind <;> simp [completeTask, hrun, hk]

theorem initFs_fsReady (s : SchedState) : (initFs s).fsReady = true := by
  simp [initFs, nextTrue_fsReady]

theorem schedInv_run (cs : List Cmd) (s : SchedState) (h : SchedInv s)
    (hb : (if s.fsReady = true then 1 else 0) + countInit cs ≤ 1) :
    SchedInv (run cs s) := by
  induction cs generalizing s with
  | nil => exact h
  | cons c cs ih =>
      rw [run_cons]
      cases c with
      | submit t =>
          refine ih _ (schedInv_addTaskToQueue t s h) ?_
          show (if (addTaskToQueue t s).fsReady = true then 1 else 0) + countInit cs ≤ 1
          rw [addTaskToQueue_fsReady]
          simpa using hb
      | fsInit =>
          have hfs : s.fsReady = false := by
            cases hsf : s.fsReady with
            | false => rfl
            | true => rw [hsf] at hb; simp at hb
          have hc0 : countInit cs = 0 := by
            rw [hfs] at hb; simp at hb; omega
          refine ih _ (schedInv_initFs s h hfs) ?_
          show (if (initFs s).fsReady = true then 1 else 0) + countInit cs ≤ 1
          simp [initFs_fsReady, hc0]
      | complete o =>
          refine ih _ (schedInv_completeTask o s h) ?_
          show (if (completeTask o s).fsReady = true then 1 else 0) + countInit cs ≤ 1
          rw [completeTask_fsReady]
          simpa using hb

theorem schedInv_reachable (cs : List Cmd) (h : countInit cs ≤ 1) :
    SchedInv (run cs initState) :=
  schedInv_run cs initState schedInv_initState (by simpa [initState] using h)

theorem nextTrue_submittedIds (s : SchedState) :
    submittedIds (nextTrue s).trace = submittedIds s.trace := by
  cases hq : s.tasksQueue with
  | nil => rw [nextTrue_nil s hq]; simp [submittedIds_append]
  | cons t rest => rw [nextTrue_cons s t rest hq]; simp [submittedIds_append]

theorem step_submittedIds (s : SchedState) (c : Cmd) :
    submittedIds (step s c).trace = submittedIds s.trace ++ submitIds [c] := by
  cases c with
  | submit t =>
      show submittedIds (addTaskToQueue t s).trace = _
      by_cases hc : (s.tasksQueue ++ [t]).length = 1 ∧ s.signal = true
      · have hq : s.tasksQueue = [] := by
          have h1 := hc.1
          simp at h1
          exact h1
        rw [addTaskToQueue_fast s t hq hc.2]
        simp [submittedIds_append]
      · rw [addTaskToQueue_slow s t hc]
        simp [submittedIds_append]
  | fsInit =>
      show submittedIds (nextTrue { s with fsReady := true }).trace = _
      rw [nextTrue_submittedIds]
      simp
  | complete o =>
      show submittedIds (completeTask o s).trace = _
      cases hrun : s.running with
      | none => simp [completeTask, hrun]
      | some t =>
          cases o with
          | success =>
              cases hk : t.kind <;>
                simp [completeTask, hrun, hk, nextTrue_submittedIds, submittedIds_append]
          | lookupFail =>
              simp [completeTask, hrun, nextTrue_submittedIds, submittedIds_append]
          | writeFail =>
              cases hk : t.kind <;> simp [completeTask, hrun, hk, submittedIds_append]

theorem submitIds_cons (c : Cmd) (cs : List Cmd) :
    submitIds (c :: cs) = submitIds [c] ++ submitIds cs := by
  cases c <;> simp

theorem run_submittedIds (cs : List Cmd) (s : SchedState) :
    submittedIds (run cs s).trace = submittedIds s.trace ++ submitIds cs := by
  induction cs generalizing s with
  | nil => simp [run_nil]
  | cons c cs ih =>
      rw [run_cons, ih, step_submittedIds, submitIds_cons c cs, List.append_assoc]

theorem run_fsReady_noInit (cs : List Cmd) (s : SchedState) (h : countInit cs = 0) :
    (run cs s).fsReady = s.fsReady := by
  induction cs generalizing s with
  | nil => rfl
  | cons c cs ih =>
      cases c with
      | submit t =>
          rw [run_cons, ih _ (by simpa using h)]
          exact addTaskToQueue_fsReady t s
      | fsInit => simp at h
      | complete o =>
          rw [run_cons, ih _ (by simpa using h)]
          exact completeTask_fsReady o s

theorem startedIds_eq_nil_of_all_submitted (es : List Event)
    (h : ∀ e ∈ es, ∃ i, e = Event.submitted i) : startedIds es = [] := by
  induction es with
  | nil => rfl
  | cons e es ih =>
      obtain ⟨i, rfl⟩ := h e (List.mem_cons_self e es)
      simpa using ih (fun e he => h e (List.mem_cons_of_mem _ he))

end BrowserFs

namespace BrowserFs

/-! ### Pre-initialization submissions and post-initialization draining -/

theorem run_submits_preInit (ts : List Task) :
    ∀ s : SchedState, s.signal = false →
    run (ts.map Cmd.submit) s =
      { s with tasksQueue := s.tasksQueue ++ ts
             , trace := s.trace ++ ts.map (fun t => Event.submitted t.id) } := by
  induction ts with
  | nil => intro s _; simp [run_nil]
  | cons t ts ih =>
      intro s hsig
      have hslow : ¬((s.tasksQueue ++ [t]).length = 1 ∧ s.signal = true) := by
        rintro ⟨-, h2⟩
        rw [hsig] at h2
        simp at h2
      rw [List.map_cons, run_cons,
        show step s (Cmd.submit t) = addTaskToQueue t s from rfl,
        addTaskToQueue_slow s t hslow, ih _ (by simp [hsig])]
      simp [List.append_assoc]

theorem completeTask_success_nil (s : SchedState) (t : Task)
    (hrun : s.running = some t) (hq : s.tasksQueue = []) :
    (completeTask Outcome.success s).tasksQueue = []
    ∧ (completeTask Outcome.success s).running = none
    ∧ (completeTask Outcome.success s).signal = true
    ∧ startedIds (completeTask Outcome.success s).trace = startedIds s.trace := by
  cases hk : t.kind <;>
    · simp only [completeTask, hrun, hk]
      rw [nextTrue_nil _ (by simp [hq])]
      simp [startedIds_append, hq]

theorem completeTask_success_cons (s : SchedState) (t u : Task) (rest : List Task)
    (hrun : s.running = some t) (hq : s.tasksQueue = u :: rest) :
    (completeTask Outcome.success s).tasksQueue = rest
    ∧ (completeTask Outcome.success s).running = some u
    ∧ (completeTask Outcome.success s).signal = false
    ∧ startedIds (completeTask Outcome.success s).trace = startedIds s.trace ++ [u.id] := by
  cases hk : t.kind <;>
    · simp only [completeTask, hrun, hk]
      rw [nextTrue_cons _ u rest (by simp [hq])]
      simp [startedIds_append]

theorem run_success_drain (q : List Task) : ∀ (s : SchedState) (t : Task),
    s.tasksQueue = q → s.running = some t →
    startedIds (run (List.replicate (q.length + 1) (Cmd.complete Outcome.success)) s).trace
        = startedIds s.trace ++ q.map Task.id
    ∧ (run (List.replicate (q.length + 1) (Cmd.complete Outcome.success)) s).tasksQueue = []
    ∧ (run (List.replicate (q.length + 1) (Cmd.complete Outcome.success)) s).running = none
    ∧ (run (List.replicate (q.length + 1) (Cmd.complete Outcome.success)) s).signal = true := by
  induction q with
  | nil =>
      intro s t hq hrun
      have h1 := completeTask_success_nil s t hrun hq
      rw [show run (List.replicate (List.length ([] : List Task) + 1)
            (Cmd.complete Outcome.success)) s = completeTask Outcome.success s from rfl]
      exact ⟨by simp [h1.2.2.2], h1.1, h1.2.1, h1.2.2.1⟩
  | cons u rest ih =>
      intro s t hq hrun
      obtain ⟨hq2, hrun2, _, hst2⟩ := completeTask_success_cons s t u rest hrun hq
      rw [show (u :: rest).length + 1 = rest.length + 1 + 1 from rfl, List.replicate_succ,
        run_cons, show step s (Cmd.complete Outcome.success) = completeTask Outcome.success s
          from rfl]
      have ih2 := ih (completeTask Outcome.success s) u hq2 hrun2
      refine ⟨?_, ih2.2.1, ih2.2.2.1, ih2.2.2.2⟩
      rw [ih2.1, hst2]
      simp

end BrowserFs

namespace BrowserFs

/-! ### Concrete tasks and scenarios -/

def taskCX : Task := { id := 1, kind := OpKind.write, name := "c.txt", content := "X" }

def taskCY : Task := { id := 2, kind := OpKind.write, name := "c.txt", content := "Y" }

/-- Two writes are submitted after the backend is ready; the first one's
`FileWriter` then fires `onerror`. -/
def stallCmds : List Cmd :=
  [Cmd.fsInit, Cmd.submit taskCX, Cmd.submit taskCY, Cmd.complete Outcome.writeFail]

def taskDW : Task := { id := 1, kind := OpKind.write, name := "d.txt", content := "A" }

def taskDA : Task := { id := 2, kind := OpKind.append, name := "d.txt", content := "B" }

def taskDR : Task := { id := 3, kind := OpKind.read, name := "d.txt", content := "" }

/-- Overwrite "A", append "B", read — against a backend starting without the
file. -/
def scenarioD : List Cmd :=
  [Cmd.fsInit, Cmd.submit taskDW, Cmd.submit taskDA, Cmd.submit taskDR,
   Cmd.complete Outcome.success, Cmd.complete Outcome.success, Cmd.complete Outcome.success]

/-- C1: the claim states that when task k fails with an OperationError its
error continuation is invoked and the ReadinessSignal is set back to true,
so task k+1 executes with no external intervention.  The code violates this
for write errors: line 93 (line 131 for append) overwrites the
`fileWriter.onerror` handler of lines 88-91 (126-129) with the bare
`onErrorCallback`, so `next(true)` is never called.  At the failing input —
two writes submitted, the first one's `FileWriter` erroring — the error
continuation of task 1 fires, but the signal stays `false`, task 2 stays
queued with no backend call outstanding, and a further environment event
changes nothing: the queue is permanently stalled. -/
theorem writeFail_stalls_queue :
    Event.failed 1 ∈ (run stallCmds initState).trace
    ∧ (run stallCmds initState).signal = false
    ∧ startedIds (run stallCmds initState).trace = [1]
    ∧ (run stallCmds initState).tasksQueue = [taskCY]
    ∧ (run stallCmds initState).running = none
    ∧ run (stallCmds ++ [Cmd.complete Outcome.success]) initState = run stallCmds initState := by
  decide

/-- C6: submitting a task when the queue was empty and the subject currently
reads `true` dequeues and runs that task in the same synchronous turn — the
resulting trace gains `submitted`, `signalSet false`, `started` and no
`signalSet true`, i.e. no signal transition is involved; under any other
condition (`length ≠ 1` after the push, or signal `false`) the submission
only appends the task, with no drain. -/
theorem submit_fast_path (t : Task) (s : SchedState) :
    (s.tasksQueue = [] → s.signal = true →
      addTaskToQueue t s =
        { s with tasksQueue := [], signal := false, running := some t
               , overlap := s.overlap || s.running.isSome
               , trace := s.trace ++
                   [Event.submitted t.id, Event.signalSet false, Event.started t.id] })
    ∧ (¬((s.tasksQueue ++ [t]).length = 1 ∧ s.signal = true) →
      addTaskToQueue t s =
        { s with tasksQueue := s.tasksQueue ++ [t]
               , trace := s.trace ++ [Event.submitted t.id] }) :=
  ⟨fun hq hsig => addTaskToQueue_fast s t hq hsig, fun h => addTaskToQueue_slow s t h⟩

theorem submit_fast_path_witness :
    addTaskToQueue taskCX (initFs initState)
      = { initFs initState with
            tasksQueue := [], signal := false, running := some taskCX
          , overlap := (initFs initState).overlap || (initFs initState).running.isSome
          , trace := (initFs initState).trace ++
              [Event.submitted taskCX.id, Event.signalSet false, Event.started taskCX.id] }
    ∧ addTaskToQueue taskCY initState
      = { initState with
            tasksQueue := initState.tasksQueue ++ [taskCY]
          , trace := initState.trace ++ [Event.submitted taskCY.id] } :=
  ⟨(submit_fast_path taskCX (initFs initState)).1 (by decide) (by decide),
   (submit_fast_path taskCY initState).2 (by decide)⟩

/-- C8: overwrite `"A"` into d.txt, append `"B"`, then read, on a backend
without the file: after the overwrite completes the file holds exactly
`"A"`; after the append it holds `"AB"`; the final read's success callback
receives `"AB"`. -/
theorem overwrite_append_read_gives_AB :
    getContent (run (List.take 5 scenarioD) initState).files "d.txt" = "A"
    ∧ getContent (run (List.take 6 scenarioD) initState).files "d.txt" = "AB"
    ∧ getContent (run scenarioD initState).files "d.txt" = "AB"
    ∧ Event.succeeded 3 (some "AB") ∈ (run scenarioD initState).trace := by
  decide

/-- Model of the rxjs 5 `BehaviorSubject<boolean>` used as
`tasksProcessSubject`: the stored value plus the sequence of values
delivered to subscribers.  `next(v)` stores `v` and then `Subject.next`
synchronously delivers `v` to every current subscriber — it performs no
comparison with the previously stored value. -/
structure BehaviorSubjectB where
  value : Bool
  delivered : List Bool
deriving DecidableEq, Repr

/-- rxjs `BehaviorSubject.next`: store the value, then notify. -/
def BehaviorSubjectB.next (v : Bool) (s : BehaviorSubjectB) : BehaviorSubjectB :=
  { value := v, delivered := s.delivered ++ [v] }

/-- rxjs `BehaviorSubject.getValue`. -/
def BehaviorSubjectB.getValue (s : BehaviorSubjectB) : Bool :=
  s.value

/-- C9 counterexample: with the subject currently holding `true`, writing
`true` again delivers a notification to the subscribers — refuting
"subscribers are notified if and only if the written value differs from the
current value". -/
theorem next_same_value_notifies :
    BehaviorSubjectB.getValue { value := true, delivered := [] } = true
    ∧ (BehaviorSubjectB.next true { value := true, delivered := [] }).delivered ≠ [] := by
  decide

/-- C9 amended: `next(w)` stores `w` and always notifies every subscriber
with `w`, whether or not `w` differs from the current value; repeated
writes of the same value produce repeated notifications. -/
theorem next_always_notifies (w : Bool) (s : BehaviorSubjectB) :
    (BehaviorSubjectB.next w s).value = w
    ∧ (BehaviorSubjectB.next w s).delivered = s.delivered ++ [w] :=
  ⟨rfl, rfl⟩

/-- C10: when the running task's backend call succeeds, a read's handler
(lines 51-54) calls `next(true)` strictly before the success callback —
so the trace shows `signalSet true` (and possibly the next task's dequeue)
before `succeeded` — whereas a write's handler (lines 80-86) and an
append's handler (lines 120-124) invoke the success callback strictly
before `next(true)`. -/
theorem completion_callback_order (s : SchedState) (t : Task) (h : s.running = some t) :
    (t.kind = OpKind.read →
      ∃ mid, (completeTask Outcome.success s).trace
        = s.trace ++ Event.signalSet true ::
            (mid ++ [Event.succeeded t.id (some (getContent s.files t.name))]))
    ∧ (t.kind = OpKind.write →
      ∃ tl, (completeTask Outcome.success s).trace
        = s.trace ++ Event.succeeded t.id none :: Event.signalSet true :: tl)
    ∧ (t.kind = OpKind.append →
      ∃ tl, (completeTask Outcome.success s).trace
        = s.trace ++ Event.succeeded t.id none :: Event.signalSet true :: tl) := by
  refine ⟨?_, ?_, ?_⟩ <;> intro hk <;> simp only [completeTask, h, hk] <;>
    cases hq : s.tasksQueue with
  | nil =>
      rw [nextTrue_nil _ (by simp [hq])]
      exact ⟨[], by simp⟩
  | cons u rest =>
      rw [nextTrue_cons _ u rest (by simp [hq])]
      exact ⟨[Event.signalSet false, Event.started u.id], by simp⟩

end BrowserFs

namespace BrowserFs

/-! ### Claims over arbitrary runs -/

/-- C2: for every valid run (the browser delivers the requestFileSystem
callback at most once), the submitted-task events record exactly the
submissions in order, and the order in which task bodies start executing is
a prefix of the submission order — strict FIFO: `addTaskToQueue` appends at
the tail, `deQueueTask` removes from the head, nothing else reorders. -/
theorem execution_order_matches_submission (cs : List Cmd) (h : countInit cs ≤ 1) :
    submittedIds (run cs initState).trace = submitIds cs
    ∧ ∃ pending, startedIds (run cs initState).trace ++ pending
        = submittedIds (run cs initState).trace := by
  refine ⟨by simpa [initState] using run_submittedIds cs initState, ?_⟩
  exact ⟨(run cs initState).tasksQueue.map Task.id, ((schedInv_reachable cs h).fifo).symm⟩

def fifoCmds : List Cmd :=
  [Cmd.submit taskDW, Cmd.fsInit, Cmd.submit taskDA, Cmd.complete Outcome.success]

theorem execution_order_matches_submission_witness :
    submittedIds (run fifoCmds initState).trace = submitIds fifoCmds
    ∧ ∃ pending, startedIds (run fifoCmds initState).trace ++ pending
        = submittedIds (run fifoCmds initState).trace :=
  execution_order_matches_submission fifoCmds (by decide)

/-- C3: in every reachable state no two task bodies have ever overlapped
(at most one task executes at any instant), and whenever a task's backend
call is outstanding — the span from its dequeue to its completion callback —
the subject reads `false`; a second dequeue during that span would enter a
task body while another is outstanding and set the overlap flag. -/
theorem single_flight (cs : List Cmd) (h : countInit cs ≤ 1) :
    (run cs initState).overlap = false
    ∧ ((run cs initState).running.isSome = true → (run cs initState).signal = false) :=
  ⟨(schedInv_reachable cs h).overlap_eq, (schedInv_reachable cs h).run_sig⟩

theorem single_flight_witness :
    (run fifoCmds initState).overlap = false
    ∧ ((run fifoCmds initState).running.isSome = true →
        (run fifoCmds initState).signal = false) :=
  single_flight fifoCmds (by decide)

/-- C4: under every interleaving of submissions and completions (with
distinct submission ids and at most one initialization), `deQueueTask` is
never entered with an empty queue (no fault), no task body is started
twice, and no task is skipped: the submitted ids are exactly the started
ids followed by the still-queued ids. -/
theorem no_double_drain_no_skip (cs : List Cmd) (h1 : countInit cs ≤ 1)
    (h2 : (submitIds cs).Nodup) :
    (run cs initState).fault = false
    ∧ (startedIds (run cs initState).trace).Nodup
    ∧ submittedIds (run cs initState).trace
        = startedIds (run cs initState).trace ++ (run cs initState).tasksQueue.map Task.id := by
  have hinv := schedInv_reachable cs h1
  refine ⟨hinv.fault_eq, ?_, hinv.fifo⟩
  have hsub : (submittedIds (run cs initState).trace).Nodup := by
    rw [show submittedIds (run cs initState).trace = submitIds cs from by
      simpa [initState] using run_submittedIds cs initState]
    exact h2
  rw [hinv.fifo] at hsub
  exact hsub.of_append_left

theorem no_double_drain_no_skip_witness :
    (run fifoCmds initState).fault = false
    ∧ (startedIds (run fifoCmds initState).trace).Nodup
    ∧ submittedIds (run fifoCmds initState).trace
        = startedIds (run fifoCmds initState).trace
            ++ (run fifoCmds initState).tasksQueue.map Task.id :=
  no_double_drain_no_skip fifoCmds (by decide) (by decide)

theorem startedIds_map_submitted (ts : List Task) :
    startedIds (ts.map fun t => Event.submitted t.id) = [] := by
  induction ts with
  | nil => rfl
  | cons t ts ih => simpa using ih

/-- C5: tasks submitted while the subject still holds its initial `false`
are all queued in order, none executes and none is dropped; once `initFs`
stores the handle and sets the signal to `true`, they all execute, in
submission order. -/
theorem preInit_submissions_queued_then_run (ts : List Task) :
    (run (ts.map Cmd.submit) initState).tasksQueue = ts
    ∧ startedIds (run (ts.map Cmd.submit) initState).trace = []
    ∧ startedIds (run (ts.map Cmd.submit ++ [Cmd.fsInit]
          ++ List.replicate ts.length (Cmd.complete Outcome.success)) initState).trace
        = ts.map Task.id
    ∧ (run (ts.map Cmd.submit ++ [Cmd.fsInit]
          ++ List.replicate ts.length (Cmd.complete Outcome.success)) initState).tasksQueue
        = []
    ∧ (run (ts.map Cmd.submit ++ [Cmd.fsInit]
          ++ List.replicate ts.length (Cmd.complete Outcome.success)) initState).signal
        = true := by
  have hpre := run_submits_preInit ts initState rfl
  have hq1 : (run (ts.map Cmd.submit) initState).tasksQueue = ts := by
    rw [hpre]; simp [initState]
  have hst1 : startedIds (run (ts.map Cmd.submit) initState).trace = [] := by
    rw [hpre]; simp [initState, startedIds_append, startedIds_map_submitted]
  refine ⟨hq1, hst1, ?_⟩
  cases ts with
  | nil => exact ⟨by decide, by decide, by decide⟩
  | cons t ts' =>
      have hdecomp : run ((t :: ts').map Cmd.submit ++ [Cmd.fsInit]
            ++ List.replicate (t :: ts').length (Cmd.complete Outcome.success)) initState
          = run (List.replicate (ts'.length + 1) (Cmd.complete Outcome.success))
              (initFs (run ((t :: ts').map Cmd.submit) initState)) := by
        rw [run_append, run_append]
        rfl
      have hinitq : (initFs (run ((t :: ts').map Cmd.submit) initState)).tasksQueue = ts'
          ∧ (initFs (run ((t :: ts').map Cmd.submit) initState)).running = some t
          ∧ startedIds (initFs (run ((t :: ts').map Cmd.submit) initState)).trace
              = [t.id] := by
        have hrw := nextTrue_cons
          { run ((t :: ts').map Cmd.submit) initState with fsReady := true } t ts'
          (by exact hq1)
        refine ⟨?_, ?_, ?_⟩
        · simp only [initFs]
          rw [hrw]
        · simp only [initFs]
          rw [hrw]
        · simp only [initFs]
          rw [hrw]
          show startedIds ((run ((t :: ts').map Cmd.submit) initState).trace
            ++ [Event.signalSet true, Event.signalSet false, Event.started t.id]) = [t.id]
          rw [startedIds_append, hst1]
          rfl
      obtain ⟨hiq, hirun, hist⟩ := hinitq
      have hdrain := run_success_drain ts' _ t hiq hirun
      refine ⟨?_, ?_, ?_⟩
      · rw [hdecomp, hdrain.1, hist]
        simp
      · rw [hdecomp]; exact hdrain.2.1
      · rw [hdecomp]; exact hdrain.2.2.2

/-- C7: if `initFs` is never invoked, then after any environment behavior
the subject still reads `false`, no task body has ever started, no error
continuation has ever been notified, and every submitted task is still
sitting in the queue, in order: the initialization-failure path is entirely
unhandled and the queue is stalled forever. -/
theorem init_failure_stalls_forever (cs : List Cmd) (h : countInit cs = 0) :
    (run cs initState).signal = false
    ∧ startedIds (run cs initState).trace = []
    ∧ (∀ i, Event.failed i ∉ (run cs initState).trace)
    ∧ (run cs initState).tasksQueue.map Task.id = submitIds cs := by
  have hfs : (run cs initState).fsReady = false := by
    rw [run_fsReady_noInit cs initState h]
    rfl
  have hinv := schedInv_reachable cs (by omega)
  obtain ⟨hsig, -, hall⟩ := hinv.pre_init hfs
  have hst : startedIds (run cs initState).trace = [] :=
    startedIds_eq_nil_of_all_submitted _ hall
  refine ⟨hsig, hst, ?_, ?_⟩
  · intro i hmem
    obtain ⟨j, hj⟩ := hall _ hmem
    simp at hj
  · have hfifo := hinv.fifo
    rw [hst] at hfifo
    simp at hfifo
    rw [← hfifo]
    simpa [initState] using run_submittedIds cs initState

theorem init_failure_stalls_forever_witness :
    (run [Cmd.submit taskCX, Cmd.complete Outcome.success] initState).signal = false
    ∧ startedIds (run [Cmd.submit taskCX, Cmd.complete Outcome.success] initState).trace = []
    ∧ (∀ i, Event.failed i
        ∉ (run [Cmd.submit taskCX, Cmd.complete Outcome.success] initState).trace)
    ∧ (run [Cmd.submit taskCX, Cmd.complete Outcome.success] initState).tasksQueue.map Task.id
        = submitIds [Cmd.submit taskCX, Cmd.complete Outcome.success] :=
  init_failure_stalls_forever [Cmd.submit taskCX, Cmd.complete Outcome.success] (by decide)

/-- The handler state with the overwrite of d.txt outstanding. -/
def writeState : SchedState := run [Cmd.fsInit, Cmd.submit taskDW] initState

/-- The handler state with the read of d.txt outstanding, d.txt holding
"A". -/
def readState : SchedState :=
  run [Cmd.fsInit, Cmd.submit taskDW, Cmd.complete Outcome.success, Cmd.submit taskDR]
    initState

theorem completion_callback_order_witness :
    (∃ mid, (completeTask Outcome.success readState).trace
        = readState.trace ++ Event.signalSet true ::
            (mid ++ [Event.succeeded taskDR.id
                (some (getContent readState.files taskDR.name))]))
    ∧ (∃ tl, (completeTask Outcome.success writeState).trace
        = writeState.trace
            ++ Event.succeeded taskDW.id none :: Event.signalSet true :: tl) :=
  ⟨(completion_callback_order readState taskDR (by decide)).1 rfl,
   (completion_callback_order writeState taskDW (by decide)).2.1 rfl⟩

end BrowserFs
